import Mathlib

/-!
Verification of the portfolio aggregation layer of this repository.

The aggregation entry point is the Next.js route handler `GET` in
`client/src/app/api/portfolio/route.ts` (shipped alongside
`components/StockChart.tsx`), together with its retrying fetch helper
`fetchBackend`; the Express backend it calls (`backend/server.js`, whose
full text ships in `client/README.md`) contributes the node-cache
`getCachedOrFetch` layer and the express-rate-limit fixed-window limiter,
both embedded here as well.  Money amounts are JavaScript numbers; they
are embedded as rationals (`ℚ`), so floating-point rounding is abstracted
away but all algebraic structure (including division and the `|| 1`
falsy-zero guard) is kept.  Network effects are embedded by passing the
outcome of every potential HTTP call explicitly as an oracle function.
-/

/-- Embeds one entry of `mockPortfolioData` (route.ts): the static holding
record `{symbol, companyName, sector, purchasePrice, shares, exchange,
investment}`. -/
structure Holding where
  symbol : String
  companyName : String
  sector : String
  purchasePrice : ℚ
  shares : ℚ
  exchange : String
  investment : ℚ
deriving DecidableEq

/-- Embeds the `latestEarnings` payload of `EarningsResponse` (route.ts). -/
structure LatestEarnings where
  date : String
  eps : ℚ
  revenue : ℚ
deriving DecidableEq

/-- Embeds `CmpResponse` (route.ts). -/
structure CmpResponse where
  currentPrice : ℚ
  previousClose : ℚ
  change : ℚ
  changePercent : ℚ
  volume : ℚ
deriving DecidableEq

/-- Embeds `PeResponse` (route.ts). -/
structure PeResponse where
  peRatio : ℚ
deriving DecidableEq

/-- Embeds `EarningsResponse` (route.ts). -/
structure EarningsResponse where
  latestEarnings : LatestEarnings
deriving DecidableEq

/-- Embeds the `StockData` interface (types/stock.ts): one aggregated row. -/
structure StockData where
  symbol : String
  companyName : String
  sector : String
  exchange : String
  purchasePrice : ℚ
  shares : ℚ
  investment : ℚ
  currentPrice : ℚ
  previousClose : ℚ
  change : ℚ
  changePercent : ℚ
  volume : ℚ
  peRatio : ℚ
  marketCap : ℚ
  latestEarnings : LatestEarnings
  presentValue : ℚ
  totalValue : ℚ
  gainLoss : ℚ
  weight : ℚ
deriving DecidableEq

/-- Outcome of one HTTP round-trip inside `fetchBackend` (route.ts):
`success v` is an `res.ok` response whose JSON parses to `v`; `httpError s`
is a response with `res.ok` false and `res.status = s`; `netError` is a
thrown failure (the 8s `AbortController` timeout firing, or a connection
error), which the source code does not retry. -/
inductive FetchOutcome (T : Type) where
  | success : T → FetchOutcome T
  | httpError : ℕ → FetchOutcome T
  | netError : FetchOutcome T

/-- Bool test used to say "this attempt did not succeed". -/
def FetchOutcome.isSuccess {T : Type} : FetchOutcome T → Bool
  | .success _ => true
  | _ => false

/-- The error that `fetchBackend` (route.ts) surfaces by throwing:
`http s` embeds `new Error` built from a non-OK status `s`, `net` embeds a
propagated fetch/abort exception. -/
inductive FetchError where
  | http : ℕ → FetchError
  | net : FetchError
deriving DecidableEq

/-- Observable behaviour of one logical `fetchBackend` call: its result,
how many HTTP calls it made, and the `delay` amounts (ms) it slept between
attempts. -/
structure FetchTrace (T : Type) where
  result : Except FetchError T
  calls : ℕ
  delays : List ℕ

/-- Recursion core of `fetchBackend` (route.ts).  The source guards the
retry with `res.status === 429 && attempt < 3` and recurses with
`attempt + 1` after `delay(300 * attempt)`; here the strictly decreasing
retry budget `3 - attempt` drives the structural recursion, so a positive
budget is exactly the source's `attempt < 3` and the guard splits into the
two equations (budget `0`: never retry; budget `b + 1`: retry on 429).
`oracle n` is the outcome of the HTTP call made by attempt `n`. -/
def fetchBackendAux {T : Type} (oracle : ℕ → FetchOutcome T) :
    ℕ → ℕ → FetchTrace T
  | attempt, 0 =>
    match oracle attempt with
    | FetchOutcome.success v => ⟨Except.ok v, 1, []⟩
    | FetchOutcome.netError => ⟨Except.error FetchError.net, 1, []⟩
    | FetchOutcome.httpError status => ⟨Except.error (FetchError.http status), 1, []⟩
  | attempt, b + 1 =>
    match oracle attempt with
    | FetchOutcome.success v => ⟨Except.ok v, 1, []⟩
    | FetchOutcome.netError => ⟨Except.error FetchError.net, 1, []⟩
    | FetchOutcome.httpError status =>
      if status = 429 then
        let rest := fetchBackendAux oracle (attempt + 1) b
        ⟨rest.result, rest.calls + 1, 300 * attempt :: rest.delays⟩
      else ⟨Except.error (FetchError.http status), 1, []⟩

/-- Embeds `fetchBackend<T>(path, attempt)` (route.ts) for a fixed path,
whose successive HTTP outcomes are given by `oracle`. -/
def fetchBackend {T : Type} (oracle : ℕ → FetchOutcome T) (attempt : ℕ) :
    FetchTrace T :=
  fetchBackendAux oracle attempt (3 - attempt)

/-- `retryCount` of the specification's configuration surface (§6), default
3; the source hard-codes it in the guard `attempt < 3`. -/
def retryCount : ℕ := 3

/-- The three per-instrument fetch results the `GET` loop body consumes:
the settled values of the `Promise.all` of `fetchBackend` on
`/api/cmp/:symbol`, `/api/pe/:symbol` and `/api/earnings/:symbol`
(an `Except.error` embeds a rejected promise). -/
structure FactResults where
  cmp : Except FetchError CmpResponse
  pe : Except FetchError PeResponse
  earnings : Except FetchError EarningsResponse

/-- True when all three fact fetches of an instrument succeeded, i.e. when
the source's `Promise.all` resolves instead of rejecting. -/
def FactResults.allOk (fr : FactResults) : Bool :=
  fr.cmp.isOk && fr.pe.isOk && fr.earnings.isOk

/-- Embeds the `else` branch of the `GET` loop (route.ts): the synthetic
facts fabricated when `BACKEND_URL` is unset. -/
def fallbackFacts (h : Holding) : FactResults where
  cmp := Except.ok
    { currentPrice := h.purchasePrice * (11 / 10)
      previousClose := h.purchasePrice * (1095 / 1000)
      change := h.purchasePrice * (5 / 1000)
      changePercent := 45 / 100
      volume := 1000000 }
  pe := Except.ok { peRatio := 25 }
  earnings := Except.ok { latestEarnings := ⟨"2024-01-01", 1, 0⟩ }

/-- The facts the loop body obtains for holding `h`: backend results when
`BACKEND_URL` is set (`backendConfigured = true`), synthetic facts
otherwise. -/
def fetchFacts (backendConfigured : Bool) (source : String → FactResults)
    (h : Holding) : FactResults :=
  if backendConfigured then source h.symbol else fallbackFacts h

/-- Embeds one iteration of the `GET` loop body (route.ts): when all three
fetches succeeded the row is built (`rows.push`), with
`presentValue = currentPrice * shares`, `gainLoss = presentValue -
investment`, `marketCap = 0`, `totalValue = presentValue` and `weight`
initially 0; when any fetch failed, `Promise.all` rejects, the `catch`
only logs, and no row is pushed (`none`). -/
def buildRow (h : Holding) (fr : FactResults) : Option StockData :=
  match fr.cmp, fr.pe, fr.earnings with
  | Except.ok cmpData, Except.ok peData, Except.ok earnData =>
    let presentValue := cmpData.currentPrice * h.shares
    let gainLoss := presentValue - h.investment
    some
      { symbol := h.symbol
        companyName := h.companyName
        sector := h.sector
        exchange := h.exchange
        purchasePrice := h.purchasePrice
        shares := h.shares
        investment := h.investment
        currentPrice := cmpData.currentPrice
        previousClose := cmpData.previousClose
        change := cmpData.change
        changePercent := cmpData.changePercent
        volume := cmpData.volume
        peRatio := peData.peRatio
        marketCap := 0
        latestEarnings := earnData.latestEarnings
        presentValue := presentValue
        totalValue := presentValue
        gainLoss := gainLoss
        weight := 0 }
  | _, _, _ => none

/-- The `rows` array after the `GET` loop (route.ts): one pushed row per
holding whose fetches all succeeded, in holding order. -/
def builtRows (backendConfigured : Bool) (source : String → FactResults)
    (holdings : List Holding) : List StockData :=
  holdings.filterMap (fun h => buildRow h (fetchFacts backendConfigured source h))

/-- `rows.reduce((s, r) => s + r.presentValue, 0)` (route.ts). -/
def sumPresentValue (rows : List StockData) : ℚ :=
  (rows.map (·.presentValue)).sum

/-- The weight denominator `rows.reduce(...) || 1` (route.ts): for numbers
the `||` guard replaces (only) a falsy total — zero — by 1. -/
def weightTotal (rows : List StockData) : ℚ :=
  if sumPresentValue rows = 0 then 1 else sumPresentValue rows

/-- Embeds `for (const r of rows) r.weight = (r.presentValue / total) * 100`
(route.ts). -/
def assignWeights (rows : List StockData) : List StockData :=
  rows.map (fun r => { r with weight := r.presentValue / weightTotal rows * 100 })

/-- Embeds the `GET` handler (route.ts), parametric in the holdings list
(`mockPortfolioData` in the source), in whether `BACKEND_URL` is set, and
in the per-symbol fetch results. -/
def GET (backendConfigured : Bool) (source : String → FactResults)
    (holdings : List Holding) : List StockData :=
  assignWeights (builtRows backendConfigured source holdings)

/-- Embeds `mockPortfolioData` (route.ts). -/
def mockPortfolioData : List Holding :=
  [ ⟨"AAPL", "Apple Inc.", "Technology", 150, 100, "NASDAQ", 150 * 100⟩
  , ⟨"MSFT", "Microsoft Corporation", "Technology", 320, 50, "NASDAQ", 320 * 50⟩
  , ⟨"GOOGL", "Alphabet Inc.", "Technology", 125, 75, "NASDAQ", 125 * 75⟩
  , ⟨"AMZN", "Amazon.com Inc.", "Consumer Discretionary", 140, 60, "NASDAQ", 140 * 60⟩
  , ⟨"TSLA", "Tesla Inc.", "Automotive", 230, 40, "NASDAQ", 230 * 40⟩
  , ⟨"NVDA", "NVIDIA Corporation", "Technology", 700, 15, "NASDAQ", 700 * 15⟩ ]

/-- A fixed all-success backend, used as concrete test input: every symbol
resolves to a quote of 165 (previous close 163), P/E 25 and fixed
earnings. -/
def okSource : String → FactResults := fun _ =>
  { cmp := Except.ok ⟨165, 163, 2, 1, 1000000⟩
    pe := Except.ok ⟨25⟩
    earnings := Except.ok ⟨⟨"2024-01-01", 1, 0⟩⟩ }

/-- Concrete test input: a backend whose quote fetch fails permanently for
"MSFT" and succeeds for every other symbol. -/
def msftFailSource : String → FactResults := fun s =>
  if s = "MSFT" then
    { cmp := Except.error FetchError.net
      pe := Except.ok ⟨25⟩
      earnings := Except.ok ⟨⟨"2024-01-01", 1, 0⟩⟩ }
  else okSource s

/-- Concrete test input: a backend whose P/E fetch fails with a 500 while
quote and earnings succeed. -/
def peFailSource : String → FactResults := fun _ =>
  { cmp := Except.ok ⟨165, 163, 2, 1, 1000000⟩
    pe := Except.error (FetchError.http 500)
    earnings := Except.ok ⟨⟨"2024-01-01", 1, 0⟩⟩ }

/-- Concrete test input: a backend quoting −1 for symbol "NEG" and 1 for
every other symbol (all fetches succeed). -/
def negSource : String → FactResults := fun s =>
  { cmp := Except.ok ⟨if s = "NEG" then -1 else 1, 1, 0, 0, 0⟩
    pe := Except.ok ⟨25⟩
    earnings := Except.ok ⟨⟨"2024-01-01", 1, 0⟩⟩ }

/-- The AAPL holding of `mockPortfolioData`, with its precomputed
investment 150 × 100. -/
def hAAPL : Holding :=
  ⟨"AAPL", "Apple Inc.", "Technology", 150, 100, "NASDAQ", 15000⟩

/-- The MSFT holding of `mockPortfolioData`, with its precomputed
investment 320 × 50. -/
def hMSFT : Holding :=
  ⟨"MSFT", "Microsoft Corporation", "Technology", 320, 50, "NASDAQ", 16000⟩

/-- Concrete test input: a holding of zero shares. -/
def hZero : Holding :=
  ⟨"ZERO", "Zero Shares Corp", "Technology", 150, 0, "NASDAQ", 0⟩

/-- Concrete test input: one share bought at 1, quoted 1 by `negSource`. -/
def hPos : Holding :=
  ⟨"POS", "Plus Corp", "Technology", 1, 1, "NSE", 1⟩

/-- Concrete test input: one share bought at 1, quoted −1 by `negSource`. -/
def hNeg : Holding :=
  ⟨"NEG", "Minus Corp", "Technology", 1, 1, "NSE", 1⟩

/-- The three fact endpoints an instrument's fetch group hits
(`/api/cmp`, `/api/pe`, `/api/earnings`). -/
inductive FactKind where
  | cmp
  | pe
  | earnings
deriving DecidableEq

/-- Virtual-time settle duration of one instrument's fetch group: the
source's `Promise.all` runs the three fact fetches concurrently and
settles with the slowest (`dur k s` is the duration in ms of the `k` fetch
for symbol `s`). -/
def groupDuration (dur : FactKind → String → ℕ) (s : String) : ℕ :=
  max (dur FactKind.cmp s) (max (dur FactKind.pe s) (dur FactKind.earnings s))

/-- Virtual-time schedule of the `GET` loop (route.ts) with the backend
configured: iteration `i` first `await`s `delay(100 * i)`, then `await`s
the group's `Promise.all`, so the loop reaches holding `i + 1` only after
group `i` settles.  Produces one `(start, finish)` pair per holding, where
`start` is the instant the group's fetches are issued and `finish` the
instant they settle. -/
def passScheduleAux (dur : FactKind → String → ℕ) :
    ℕ → ℕ → List Holding → List (ℕ × ℕ)
  | _, _, [] => []
  | i, clock, h :: rest =>
    let start := clock + 100 * i
    let finish := start + groupDuration dur h.symbol
    (start, finish) :: passScheduleAux dur (i + 1) finish rest

/-- The schedule of a whole pass, starting at virtual time 0 with index 0. -/
def passSchedule (dur : FactKind → String → ℕ) (hs : List Holding) :
    List (ℕ × ℕ) :=
  passScheduleAux dur 0 0 hs

/-- Concrete test durations: every fetch of "AAPL" takes 5000ms, every
other fetch 200ms. -/
def cex8dur : FactKind → String → ℕ :=
  fun _ s => if s = "AAPL" then 5000 else 200

/-- One entry of the backend's node-cache (`backend/server.js`, included
in the sources): the cached value together with the instant it expires
(`now + ttl` at `set` time; node-cache marks an entry expired once the
current time passes that instant). -/
structure CacheEntry (V : Type) where
  value : V
  expiresAt : ℕ

/-- Embeds node-cache's `cache.get(key)` as used by `backend/server.js`
at integer time `now`: a lazy-expiry lookup that returns the stored value
while `now ≤ expiresAt` and misses afterwards. -/
def NodeCache.get {V : Type} (store : List (String × CacheEntry V))
    (key : String) (now : ℕ) : Option V :=
  match store.find? (fun e => decide (e.1 = key)) with
  | some e => if now ≤ e.2.expiresAt then some e.2.value else none
  | none => none

/-- Embeds node-cache's `cache.set(key, data, ttl)` as used by
`backend/server.js`: last-writer-wins replacement with expiry `now + ttl`. -/
def NodeCache.set {V : Type} (store : List (String × CacheEntry V))
    (key : String) (v : V) (now ttl : ℕ) : List (String × CacheEntry V) :=
  (key, ⟨v, now + ttl⟩) :: store.filter (fun e => !decide (e.1 = key))

/-- Embeds `cacheKey(type, symbol)` (backend/server.js): the template
literal joining `type` and `symbol` with a colon, upper-cased by
`.toUpperCase()`. -/
def cacheKey (type symbol : String) : String :=
  (type ++ ":" ++ symbol).toUpper

/-- Result of one `getCachedOrFetch` call: the value returned, the cache
store afterwards, and how many fetcher (Source) calls were made. -/
structure FetchViaCache (V : Type) where
  value : V
  store : List (String × CacheEntry V)
  sourceCalls : ℕ

/-- Embeds `getCachedOrFetch(key, fetcher, ttl)` (backend/server.js):
`const hit = cache.get(key); if (hit) return hit;` — note the hit test is
JavaScript *truthiness*, modelled by the `truthy` predicate on cached
values, so an absent or expired entry, or a cached falsy value, falls
through to `await fetcher()` followed by the write-through
`cache.set(key, data, ttl)`.  `fetcher` is the value the fetcher produces
when called. -/
def getCachedOrFetch {V : Type} (truthy : V → Bool)
    (store : List (String × CacheEntry V)) (key : String) (fetcher : V)
    (ttl now : ℕ) : FetchViaCache V :=
  match NodeCache.get store key now with
  | some hit =>
    if truthy hit then ⟨hit, store, 0⟩
    else ⟨fetcher, NodeCache.set store key fetcher now ttl, 1⟩
  | none => ⟨fetcher, NodeCache.set store key fetcher now ttl, 1⟩

/-- Embeds the limiter configured in `backend/server.js`:
`rateLimit({ windowMs: 60 * 1000, max: 300 })` — express-rate-limit's
memory store is a *fixed-window* counter: all hits are wiped every
`windowMs`, so time is cut into fixed windows `[w·W, (w+1)·W)` from
process start.  `wid`/`hits` are the store's current window index and its
hit counter; a request at time `t` entering a new window resets the
counter, is admitted iff the counter is below `maxR`, and is counted.
Processes a time-ordered request sequence (the linearization of all
concurrent callers) and returns the admitted request times in order. -/
def rateLimitRun (maxR W : ℕ) : ℕ → ℕ → List ℕ → List ℕ
  | _, _, [] => []
  | wid, hits, t :: ts =>
    let hits' := if t / W = wid then hits else 0
    if hits' < maxR then t :: rateLimitRun maxR W (t / W) (hits' + 1) ts
    else rateLimitRun maxR W (t / W) hits' ts

/-- Number of admitted requests inside the sliding window `(a - W, a]`
(the measurement the original claim quantifies over). -/
def windowCount (hist : List ℕ) (W a : ℕ) : ℕ :=
  hist.countP (fun s => decide (a < s + W) && decide (s ≤ a))

/-- Number of admitted requests inside the fixed window with index `w`,
i.e. with `t / W = w`. -/
def fixedWindowCount (hist : List ℕ) (W w : ℕ) : ℕ :=
  hist.countP (fun t => decide (t / W = w))

/-- Per-attempt call-count bound of the retry loop: starting with a retry
budget `budget`, at most `budget + 1` HTTP calls happen. -/
theorem fetchBackendAux_calls_le {T : Type} (oracle : ℕ → FetchOutcome T) :
    ∀ budget attempt, (fetchBackendAux oracle attempt budget).calls ≤ budget + 1 := by
  intro budget
  induction budget with
  | zero =>
    intro attempt
    cases ho : oracle attempt with
    | success v => simp only [fetchBackendAux, ho]; exact le_rfl
    | netError => simp only [fetchBackendAux, ho]; exact le_rfl
    | httpError status => simp only [fetchBackendAux, ho]; exact le_rfl
  | succ b ih =>
    intro attempt
    cases ho : oracle attempt with
    | success v => simp only [fetchBackendAux, ho]; exact Nat.le_add_left 1 _
    | netError => simp only [fetchBackendAux, ho]; exact Nat.le_add_left 1 _
    | httpError status =>
      simp only [fetchBackendAux, ho]
      by_cases hs : status = 429
      · rw [if_pos hs]; exact Nat.succ_le_succ (ih (attempt + 1))
      · rw [if_neg hs]; exact Nat.le_add_left 1 _

/-- If no attempt ever succeeds, the retry loop surfaces an error value. -/
theorem fetchBackendAux_error {T : Type} (oracle : ℕ → FetchOutcome T)
    (h : ∀ n, (oracle n).isSuccess = false) :
    ∀ budget attempt, (fetchBackendAux oracle attempt budget).result.isOk = false := by
  intro budget
  induction budget with
  | zero =>
    intro attempt
    cases ho : oracle attempt with
    | success v => have hh := h attempt; rw [ho] at hh; simp [FetchOutcome.isSuccess] at hh
    | netError => simp only [fetchBackendAux, ho]; rfl
    | httpError status => simp only [fetchBackendAux, ho]; rfl
  | succ b ih =>
    intro attempt
    cases ho : oracle attempt with
    | success v => have hh := h attempt; rw [ho] at hh; simp [FetchOutcome.isSuccess] at hh
    | netError => simp only [fetchBackendAux, ho]; rfl
    | httpError status =>
      simp only [fetchBackendAux, ho]
      by_cases hs : status = 429
      · rw [if_pos hs]; exact ih (attempt + 1)
      · rw [if_neg hs]; rfl

/-- C6: a logical `fetchBackend` fetch against a permanently failing
backend makes at most `retryCount + 1` HTTP calls (in fact at most 3) and
then surfaces the error as a rejected result instead of substituting a
default value. -/
theorem claimC6 {T : Type} (oracle : ℕ → FetchOutcome T)
    (h : ∀ n, (oracle n).isSuccess = false) :
    (fetchBackend oracle 1).calls ≤ retryCount + 1 ∧
      (fetchBackend oracle 1).result.isOk = false := by
  refine ⟨?_, fetchBackendAux_error oracle h _ _⟩
  exact le_trans (fetchBackendAux_calls_le oracle 2 1) (by decide)

/-- Witness for C6 at the always-429 backend. -/
theorem claimC6_witness :
    (fetchBackend (T := PeResponse) (fun _ => FetchOutcome.httpError 429) 1).calls
        ≤ retryCount + 1 ∧
      (fetchBackend (T := PeResponse) (fun _ => FetchOutcome.httpError 429) 1).result.isOk
        = false :=
  claimC6 (fun _ => FetchOutcome.httpError 429) (fun _ => rfl)

/-- C5 (amended): only an upstream 429 is retried; an always-429 backend is
called exactly 3 times with the delay schedule 300·attempt ms, i.e. 300ms
then 600ms, before the error is surfaced. -/
theorem claimC5 {T : Type} (oracle : ℕ → FetchOutcome T)
    (h : ∀ n, oracle n = FetchOutcome.httpError 429) :
    (fetchBackend oracle 1).calls = 3 ∧
      (fetchBackend oracle 1).delays = [300, 600] ∧
      (fetchBackend oracle 1).result = Except.error (FetchError.http 429) := by
  have hfun : oracle = fun _ => FetchOutcome.httpError 429 := funext h
  subst hfun
  exact ⟨rfl, rfl, rfl⟩

/-- Counterexample for C5 as stated: a permanent 5xx (status 500) and a
per-attempt timeout (`netError`) are not retried at all — one single HTTP
call each, no backoff — contradicting "retried up to 3 attempts on every
transient failure". -/
theorem claimC5_counterexample :
    (fetchBackend (T := CmpResponse) (fun _ => FetchOutcome.httpError 500) 1).calls = 1 ∧
      (fetchBackend (T := CmpResponse) (fun _ => FetchOutcome.httpError 500) 1).result
        = Except.error (FetchError.http 500) ∧
      (fetchBackend (T := CmpResponse) (fun _ => FetchOutcome.netError) 1).calls = 1 ∧
      (fetchBackend (T := CmpResponse) (fun _ => FetchOutcome.netError) 1).result
        = Except.error FetchError.net ∧
      ¬ (fetchBackend (T := CmpResponse) (fun _ => FetchOutcome.httpError 500) 1).calls = 3 := by
  refine ⟨rfl, ?_, rfl, ?_, by decide⟩ <;> rfl

/-- Witness for C5 at the always-429 backend. -/
theorem claimC5_witness :
    (fetchBackend (T := CmpResponse) (fun _ => FetchOutcome.httpError 429) 1).calls = 3 ∧
      (fetchBackend (T := CmpResponse) (fun _ => FetchOutcome.httpError 429) 1).delays
        = [300, 600] ∧
      (fetchBackend (T := CmpResponse) (fun _ => FetchOutcome.httpError 429) 1).result
        = Except.error (FetchError.http 429) :=
  claimC5 (fun _ => FetchOutcome.httpError 429) (fun _ => rfl)

/-- When any of the three fetches failed, `Promise.all` rejects and the
loop body pushes no row. -/
theorem buildRow_eq_none (h : Holding) (fr : FactResults)
    (hno : fr.allOk = false) : buildRow h fr = none := by
  rcases fr with ⟨c, p, e⟩
  cases c <;> cases p <;> cases e <;>
    first
      | rfl
      | simp [FactResults.allOk, Except.isOk, Except.toBool] at hno

/-- When all three fetches succeeded, the loop body pushes exactly one row,
and that row carries the holding's symbol. -/
theorem buildRow_some_of_allOk (h : Holding) (fr : FactResults)
    (hok : fr.allOk = true) :
    ∃ r, buildRow h fr = some r ∧ r.symbol = h.symbol := by
  rcases fr with ⟨c, p, e⟩
  cases c <;> cases p <;> cases e <;>
    first
      | exact ⟨_, rfl, rfl⟩
      | simp [FactResults.allOk, Except.isOk, Except.toBool] at hok

/-- Reassigning `weight` in place does not change any other field, so the
symbol column of the final rows is that of the built rows. -/
theorem assignWeights_map_symbol (rows : List StockData) :
    (assignWeights rows).map (·.symbol) = rows.map (·.symbol) := by
  simp only [assignWeights, List.map_map]
  rfl

/-- The built rows are exactly the all-fetches-succeeded holdings, in input
order, as witnessed by their symbol column. -/
theorem builtRows_map_symbol (b : Bool) (src : String → FactResults) :
    ∀ hs : List Holding,
      (builtRows b src hs).map (·.symbol)
        = (hs.filter (fun h => (fetchFacts b src h).allOk)).map (·.symbol) := by
  intro hs
  induction hs with
  | nil => rfl
  | cons h hs ih =>
    simp only [builtRows, List.filterMap_cons, List.filter_cons]
    cases hok : (fetchFacts b src h).allOk with
    | false =>
      rw [buildRow_eq_none h _ hok]
      simpa using ih
    | true =>
      obtain ⟨r, hr, hsym⟩ := buildRow_some_of_allOk h _ hok
      rw [hr]
      simpa [hsym] using ih

/-- C1 (amended): one aggregation pass returns one row per holding whose
three fetches all succeeded, in input order (certified by the symbol
column); a holding with any failed fetch is omitted from the returned
array rather than marked stale, so the result can be a partial array. -/
theorem claimC1 (b : Bool) (src : String → FactResults) (hs : List Holding) :
    (GET b src hs).map (·.symbol)
        = (hs.filter (fun h => (fetchFacts b src h).allOk)).map (·.symbol) ∧
      (GET b src hs).length
        = (hs.filter (fun h => (fetchFacts b src h).allOk)).length := by
  have hmap : (GET b src hs).map (·.symbol)
      = (hs.filter (fun h => (fetchFacts b src h).allOk)).map (·.symbol) := by
    rw [GET, assignWeights_map_symbol, builtRows_map_symbol]
  refine ⟨hmap, ?_⟩
  have := congrArg List.length hmap
  simpa using this

/-- Counterexample for C1 as stated: with the backend configured and the
MSFT quote failing permanently, the pass over [AAPL, MSFT] returns a
single row — the failed instrument is dropped, not returned as a stale
row, and the output length differs from the input length. -/
theorem claimC1_counterexample :
    (GET true msftFailSource [hAAPL, hMSFT]).map (·.symbol) = ["AAPL"] ∧
      (GET true msftFailSource [hAAPL, hMSFT]).length = 1 ∧
      ¬ (GET true msftFailSource [hAAPL, hMSFT]).length
          = [hAAPL, hMSFT].length := by
  refine ⟨rfl, rfl, fun hlen => ?_⟩
  have h1 : (1 : ℕ) = 2 := hlen
  exact absurd h1 (by decide)

/-- C2 (amended): a failed P/E or earnings fetch does not merely degrade
that field — it suppresses the instrument's entire row (`Promise.all`
rejects and the `catch` skips the push); the pass itself still completes,
returning exactly the rows of the remaining holdings. -/
theorem claimC2 (src : String → FactResults) (h : Holding)
    (rest : List Holding)
    (hfail : (src h.symbol).pe.isOk = false ∨ (src h.symbol).earnings.isOk = false) :
    buildRow h (src h.symbol) = none ∧
      GET true src (h :: rest) = GET true src rest := by
  have hno : (src h.symbol).allOk = false := by
    rcases hfail with hf | hf <;>
      simp [FactResults.allOk, hf]
  have hrow : buildRow h (src h.symbol) = none := buildRow_eq_none h _ hno
  refine ⟨hrow, ?_⟩
  have hrows : builtRows true src (h :: rest) = builtRows true src rest := by
    simp only [builtRows, List.filterMap_cons, fetchFacts, if_pos]
    rw [hrow]
  rw [GET, GET, hrows]

/-- Witness for C2: the P/E fetch for AAPL fails with a 500 while the
quote succeeds; AAPL's row is suppressed and the pass completes. -/
theorem claimC2_witness :
    buildRow hAAPL (peFailSource hAAPL.symbol) = none ∧
      GET true peFailSource [hAAPL] = GET true peFailSource [] :=
  claimC2 peFailSource hAAPL [] (Or.inl rfl)

/-- Counterexample for C2 as stated: for AAPL the quote fetch succeeds and
only the P/E fetch fails, yet the pass returns no AAPL row at all — the
row is suppressed instead of being produced with an unknown P/E field. -/
theorem claimC2_counterexample :
    GET true peFailSource [hAAPL] = [] ∧
      ¬ (GET true peFailSource [hAAPL]).length = 1 := by
  refine ⟨rfl, fun hlen => ?_⟩
  have h0 : (0 : ℕ) = 1 := hlen
  exact absurd h0 (by decide)

/-- With no backend configured, the pass builds exactly one synthetic row
per holding: quote 1.1 × purchasePrice, previous close 1.095 ×
purchasePrice, P/E 25, fixed earnings, and the derived money fields. -/
theorem builtRows_fallback (src : String → FactResults) :
    ∀ hs : List Holding,
      builtRows false src hs = hs.map (fun h =>
        { symbol := h.symbol
          companyName := h.companyName
          sector := h.sector
          exchange := h.exchange
          purchasePrice := h.purchasePrice
          shares := h.shares
          investment := h.investment
          currentPrice := h.purchasePrice * (11 / 10)
          previousClose := h.purchasePrice * (1095 / 1000)
          change := h.purchasePrice * (5 / 1000)
          changePercent := 45 / 100
          volume := 1000000
          peRatio := 25
          marketCap := 0
          latestEarnings := ⟨"2024-01-01", 1, 0⟩
          presentValue := h.purchasePrice * (11 / 10) * h.shares
          totalValue := h.purchasePrice * (11 / 10) * h.shares
          gainLoss := h.purchasePrice * (11 / 10) * h.shares - h.investment
          weight := 0 }) := by
  intro hs
  induction hs with
  | nil => rfl
  | cons h hs ih =>
    rw [List.map_cons, ← ih]
    rfl

/-- C9: with `BACKEND_URL` unset the pass never fails and fabricates
synthetic facts: every holding yields a row with currentPrice = 1.1 ×
purchasePrice, previousClose = 1.095 × purchasePrice, peRatio = 25 and
fixed earnings; whenever investment = purchasePrice × shares (as in
`mockPortfolioData`), the row's gainLoss is exactly 10% of its
investment. -/
theorem claimC9 (src : String → FactResults) (hs : List Holding)
    (hinv : ∀ h ∈ hs, h.investment = h.purchasePrice * h.shares) :
    (GET false src hs).length = hs.length ∧
      (GET false src hs).map (·.currentPrice)
        = hs.map (fun h => h.purchasePrice * (11 / 10)) ∧
      (GET false src hs).map (·.previousClose)
        = hs.map (fun h => h.purchasePrice * (1095 / 1000)) ∧
      (∀ r ∈ GET false src hs,
        r.peRatio = 25 ∧ r.latestEarnings = ⟨"2024-01-01", 1, 0⟩) ∧
      (GET false src hs).map (·.gainLoss)
        = hs.map (fun h => h.investment / 10) := by
  refine ⟨?_, ?_, ?_, ?_, ?_⟩
  · simp [GET, assignWeights, builtRows_fallback src hs]
  · simp only [GET, assignWeights, builtRows_fallback src hs, List.map_map]
    rfl
  · simp only [GET, assignWeights, builtRows_fallback src hs, List.map_map]
    rfl
  · intro r hr
    simp only [GET, assignWeights, builtRows_fallback src hs, List.map_map,
      List.mem_map] at hr
    obtain ⟨h0, _, rfl⟩ := hr
    exact ⟨rfl, rfl⟩
  · simp only [GET, assignWeights, builtRows_fallback src hs, List.map_map]
    refine List.map_congr_left (fun h0 hh0 => ?_)
    show h0.purchasePrice * (11 / 10) * h0.shares - h0.investment
        = h0.investment / 10
    rw [hinv h0 hh0]
    ring

/-- Witness for C9 on the shipped `mockPortfolioData` (whose `investment`
fields are all `purchasePrice * shares`). -/
theorem claimC9_witness :
    (GET false okSource mockPortfolioData).length = mockPortfolioData.length ∧
      (GET false okSource mockPortfolioData).map (·.gainLoss)
        = mockPortfolioData.map (fun h => h.investment / 10) := by
  have h := claimC9 okSource mockPortfolioData (by simp [mockPortfolioData])
  exact ⟨h.1, h.2.2.2.2⟩

/-- Weight assignment over rows with a nonzero presentValue total: the
assigned weights sum to exactly 100 (in exact rational arithmetic). -/
theorem assignWeights_weight_sum (rows : List StockData)
    (h : sumPresentValue rows ≠ 0) :
    ((assignWeights rows).map (·.weight)).sum = 100 := by
  have hT : weightTotal rows = sumPresentValue rows := by
    rw [weightTotal, if_neg h]
  have h1 : (assignWeights rows).map (·.weight)
      = rows.map (fun r => r.presentValue / weightTotal rows * 100) := by
    simp only [assignWeights, List.map_map]
    rfl
  have h2 : rows.map (fun r => r.presentValue / weightTotal rows * 100)
      = rows.map (fun r => r.presentValue * (100 / weightTotal rows)) :=
    List.map_congr_left (fun r _ => by ring)
  rw [h1, h2, List.sum_map_mul_right, hT]
  show sumPresentValue rows * (100 / sumPresentValue rows) = 100
  field_simp

/-- When every holding's three fetches succeed, every holding contributes
exactly one built row. -/
theorem builtRows_length_of_allOk (b : Bool) (src : String → FactResults) :
    ∀ hs : List Holding,
      (∀ h ∈ hs, (fetchFacts b src h).allOk = true) →
      (builtRows b src hs).length = hs.length := by
  intro hs
  induction hs with
  | nil => intro _; rfl
  | cons h hs ih =>
    intro h1
    simp only [builtRows, List.filterMap_cons]
    obtain ⟨r, hr, _⟩ := buildRow_some_of_allOk h _ (h1 h (List.mem_cons_self h hs))
    rw [hr]
    simp only [List.length_cons]
    exact congrArg Nat.succ (ih (fun h' hh' => h1 h' (List.mem_cons_of_mem h hh')))

/-- C7 (amended): for a pass whose fetches all succeed and whose rows'
presentValue total is nonzero, the weights sum to exactly 100 (exact
arithmetic; the floating-point version holds within rounding) and there is
one row per holding.  The nonzero-total hypothesis is necessary: see the
counterexample. -/
theorem claimC7 (b : Bool) (src : String → FactResults) (hs : List Holding)
    (h1 : ∀ h ∈ hs, (fetchFacts b src h).allOk = true)
    (h2 : sumPresentValue (builtRows b src hs) ≠ 0) :
    ((GET b src hs).map (·.weight)).sum = 100 ∧
      (GET b src hs).length = hs.length := by
  constructor
  · rw [GET]
    exact assignWeights_weight_sum _ h2
  · rw [GET]
    have hlen : (assignWeights (builtRows b src hs)).length
        = (builtRows b src hs).length := by
      simp [assignWeights]
    rw [hlen]
    exact builtRows_length_of_allOk b src hs h1

/-- Witness for C7: both holdings' fetches succeed against the fixed
all-success backend, and the two weights sum to 100. -/
theorem claimC7_witness :
    ((GET true okSource [hAAPL, hMSFT]).map (·.weight)).sum = 100 ∧
      (GET true okSource [hAAPL, hMSFT]).length = [hAAPL, hMSFT].length := by
  refine claimC7 true okSource [hAAPL, hMSFT] ?_ ?_
  · simp [fetchFacts, okSource, FactResults.allOk, Except.isOk, Except.toBool]
  · norm_num [sumPresentValue, builtRows, buildRow, fetchFacts, okSource,
      hAAPL, hMSFT, List.filterMap_cons]

/-- Counterexample for C7 as stated: a pass over one zero-share holding
has every quote fetch succeed, yet its single row has presentValue 0, the
weight denominator falls back to 1, and the weights sum to 0 — not 100,
and outside every tolerance. -/
theorem claimC7_counterexample :
    (∀ h ∈ [hZero], (fetchFacts true okSource h).allOk = true) ∧
      ((GET true okSource [hZero]).map (·.weight)).sum = 0 ∧
      ¬ ((GET true okSource [hZero]).map (·.weight)).sum = 100 := by
  refine ⟨by simp [fetchFacts, okSource, FactResults.allOk, Except.isOk, Except.toBool],
    ?_, ?_⟩ <;>
    norm_num [GET, assignWeights, builtRows, buildRow, fetchFacts, okSource,
      hZero, weightTotal, sumPresentValue, List.filterMap_cons]

/-- C10 (amended): the weight assignment never divides by zero — when the
rows' presentValue total is zero the denominator is replaced by 1, so each
weight equals presentValue × 100; in particular every weight is 0 whenever
every built row's presentValue is itself 0 (e.g. when no rows were built).
Zero weights are not guaranteed for a zero *total* alone: see the
counterexample. -/
theorem claimC10 (b : Bool) (src : String → FactResults) (hs : List Holding)
    (hsum : sumPresentValue (builtRows b src hs) = 0) :
    weightTotal (builtRows b src hs) = 1 ∧
      (∀ r ∈ GET b src hs, r.weight = r.presentValue * 100) ∧
      ((∀ r ∈ builtRows b src hs, r.presentValue = 0) →
        ∀ r ∈ GET b src hs, r.weight = 0) := by
  have hT : weightTotal (builtRows b src hs) = 1 := by
    rw [weightTotal, if_pos hsum]
  refine ⟨hT, ?_, ?_⟩
  · intro r hr
    rw [GET] at hr
    simp only [assignWeights, List.mem_map] at hr
    obtain ⟨r0, _, rfl⟩ := hr
    show r0.presentValue / weightTotal (builtRows b src hs) * 100
        = r0.presentValue * 100
    rw [hT, div_one]
  · intro hall r hr
    rw [GET] at hr
    simp only [assignWeights, List.mem_map] at hr
    obtain ⟨r0, hr0, rfl⟩ := hr
    show r0.presentValue / weightTotal (builtRows b src hs) * 100 = 0
    rw [hall r0 hr0, zero_div, zero_mul]

/-- Witness for C10: the zero-share pass has presentValue total 0, the
denominator falls back to 1, and the single row's weight is 0. -/
theorem claimC10_witness :
    weightTotal (builtRows true okSource [hZero]) = 1 ∧
      ∀ r ∈ GET true okSource [hZero], r.weight = 0 := by
  have hsum : sumPresentValue (builtRows true okSource [hZero]) = 0 := by
    norm_num [sumPresentValue, builtRows, buildRow, fetchFacts, okSource,
      hZero, List.filterMap_cons]
  have h := claimC10 true okSource [hZero] hsum
  refine ⟨h.1, h.2.2 ?_⟩
  norm_num [builtRows, buildRow, fetchFacts, okSource, hZero,
    List.filterMap_cons]

/-- Counterexample for the "every weight is exactly 0" reading of C10: two
one-share holdings quoted +1 and −1 have presentValue total 0, the
denominator falls back to 1, and the weights become 100 and −100 — far
from 0. -/
theorem claimC10_counterexample :
    sumPresentValue (builtRows true negSource [hPos, hNeg]) = 0 ∧
      (GET true negSource [hPos, hNeg]).map (·.weight) = [100, -100] ∧
      ¬ ∀ r ∈ GET true negSource [hPos, hNeg], r.weight = 0 := by
  refine ⟨?_, ?_, ?_⟩ <;>
    simp [GET, assignWeights, builtRows, buildRow, fetchFacts, negSource,
      hPos, hNeg, weightTotal, sumPresentValue, List.filterMap_cons]

/-- Every scheduled group starts no earlier than the clock it was launched
from, and finishes no earlier than it starts. -/
theorem passScheduleAux_lb (dur : FactKind → String → ℕ) :
    ∀ (hs : List Holding) (i clock : ℕ),
      ∀ p ∈ passScheduleAux dur i clock hs, clock ≤ p.1 ∧ p.1 ≤ p.2 := by
  intro hs
  induction hs with
  | nil => intro i clock p hp; simp [passScheduleAux] at hp
  | cons h hs ih =>
    intro i clock p hp
    simp only [passScheduleAux, List.mem_cons] at hp
    rcases hp with rfl | hp
    · exact ⟨Nat.le_add_right _ _, Nat.le_add_right _ _⟩
    · have hlb := ih (i + 1) (clock + 100 * i + groupDuration dur h.symbol) p hp
      exact ⟨le_trans (le_trans (Nat.le_add_right _ _) (Nat.le_add_right _ _)) hlb.1,
        hlb.2⟩

/-- The schedule is pairwise sequential: any earlier group finishes before
any later group starts. -/
theorem passScheduleAux_pairwise (dur : FactKind → String → ℕ) :
    ∀ (hs : List Holding) (i clock : ℕ),
      (passScheduleAux dur i clock hs).Pairwise (fun a b => a.2 ≤ b.1) := by
  intro hs
  induction hs with
  | nil => intro i clock; simp [passScheduleAux]
  | cons h hs ih =>
    intro i clock
    simp only [passScheduleAux]
    refine List.Pairwise.cons ?_ (ih (i + 1) _)
    intro p hp
    exact (passScheduleAux_lb dur hs (i + 1) _ p hp).1

/-- C8 (amended): in the backend-configured pass the fetch groups do not
execute concurrently — the loop `await`s each group's `Promise.all` (and
an extra `delay(100·i)`) before launching the next, so for any two groups
the earlier one finishes before the later one starts; only the three fact
fetches inside one group overlap (its settle time is the max of their
durations, as `passSchedule` encodes). -/
theorem claimC8 (dur : FactKind → String → ℕ) (hs : List Holding) :
    (passSchedule dur hs).Pairwise (fun a b => a.2 ≤ b.1) ∧
      ∀ p ∈ passSchedule dur hs, p.1 ≤ p.2 :=
  ⟨passScheduleAux_pairwise dur hs 0 0,
    fun p hp => (passScheduleAux_lb dur hs 0 0 p hp).2⟩

/-- Counterexample for C8 as stated: with AAPL's fetches taking 5000ms and
MSFT's 200ms, the two group start times are 0 and 5100 — offset by the
first group's entire duration plus the 100ms stagger, not by a fixed
100ms; the second group blocks on the first. -/
theorem claimC8_counterexample :
    passSchedule cex8dur [hAAPL, hMSFT] = [(0, 5000), (5100, 5300)] ∧
      (passSchedule cex8dur [hAAPL, hMSFT]).map Prod.fst = [0, 5100] ∧
      ¬ ((5100 : ℕ) = 0 + 100) := by
  refine ⟨rfl, rfl, by decide⟩

/-- A freshly set cache entry is returned by `cache.get` for the same key
until its expiry instant (inclusive, as node-cache checks it). -/
theorem NodeCache.get_set {V : Type}
    (store : List (String × CacheEntry V)) (key : String) (v : V)
    (now ttl now2 : ℕ) :
    NodeCache.get (NodeCache.set store key v now ttl) key now2
      = if now2 ≤ now + ttl then some v else none := by
  simp [NodeCache.get, NodeCache.set, List.find?]

/-- C3 (cache idempotence): two logical `getCachedOrFetch` calls for the
same cache key at times `t1 ≤ t2` inside one TTL window make at most one
fetcher (Source) call in total, and if the first one did call the fetcher
(a miss, written through at `t1 + ttl`), the second is a pure cache hit
with zero fetcher calls.  The hypothesis `truthy data = true` reflects the
source's truthiness hit test `if (hit)`: the facts this server caches are
JavaScript objects, which are always truthy. -/
theorem claimC3 {V : Type} (truthy : V → Bool)
    (store : List (String × CacheEntry V)) (key : String) (data : V)
    (ttl t1 t2 : ℕ) (_h1 : t1 ≤ t2) (h2 : t2 < t1 + ttl)
    (htruthy : truthy data = true) :
    (getCachedOrFetch truthy store key data ttl t1).sourceCalls
        + (getCachedOrFetch truthy
            (getCachedOrFetch truthy store key data ttl t1).store
            key data ttl t2).sourceCalls ≤ 1 ∧
      ((getCachedOrFetch truthy store key data ttl t1).sourceCalls = 1 →
        (getCachedOrFetch truthy
            (getCachedOrFetch truthy store key data ttl t1).store
            key data ttl t2).sourceCalls = 0) := by
  have hhit : NodeCache.get (NodeCache.set store key data t1 ttl) key t2
      = some data := by
    rw [NodeCache.get_set, if_pos (le_of_lt h2)]
  cases hget : NodeCache.get store key t1 with
  | some hit =>
    by_cases htr : truthy hit = true
    · simp only [getCachedOrFetch, hget, htr, if_true]
      cases hget2 : NodeCache.get store key t2 with
      | some hit2 =>
        by_cases htr2 : truthy hit2 = true <;>
          simp [getCachedOrFetch, hget2, htr2]
      | none => simp [getCachedOrFetch, hget2]
    · simp only [getCachedOrFetch, hget]
      rw [if_neg htr]
      simp [getCachedOrFetch, hhit, htruthy]
  | none =>
    simp only [getCachedOrFetch, hget]
    simp [getCachedOrFetch, hhit, htruthy]

/-- Witness for C3: empty cache, TTL 15, fetches at t = 0 and t = 5 (the
spec's two-passes-5s-apart scenario) for the upper-cased `cmp:AAPL` key:
one fetcher call then a pure hit. -/
theorem claimC3_witness :
    (getCachedOrFetch (V := ℚ) (fun _ => true) [] (cacheKey "cmp" "AAPL")
          165 15 0).sourceCalls
        + (getCachedOrFetch (fun _ => true)
            (getCachedOrFetch (V := ℚ) (fun _ => true) [] (cacheKey "cmp" "AAPL")
              165 15 0).store
            (cacheKey "cmp" "AAPL") 165 15 5).sourceCalls ≤ 1 ∧
      ((getCachedOrFetch (V := ℚ) (fun _ => true) [] (cacheKey "cmp" "AAPL")
          165 15 0).sourceCalls = 1 →
        (getCachedOrFetch (fun _ => true)
            (getCachedOrFetch (V := ℚ) (fun _ => true) [] (cacheKey "cmp" "AAPL")
              165 15 0).store
            (cacheKey "cmp" "AAPL") 165 15 5).sourceCalls = 0) :=
  claimC3 (fun _ => true) [] (cacheKey "cmp" "AAPL") 165 15 0 5
    (by decide) (by decide) rfl

/-- Every time the limiter admits or denies, the requests it outputs are
among the requests it was given. -/
theorem rateLimitRun_subset (maxR W : ℕ) :
    ∀ (ts : List ℕ) (wid hits : ℕ),
      ∀ x ∈ rateLimitRun maxR W wid hits ts, x ∈ ts := by
  intro ts
  induction ts with
  | nil => intro wid hits x hx; simp [rateLimitRun] at hx
  | cons t ts ih =>
    intro wid hits x hx
    simp only [rateLimitRun] at hx
    by_cases hadm : (if t / W = wid then hits else 0) < maxR
    · rw [if_pos hadm] at hx
      rcases List.mem_cons.mp hx with rfl | hx'
      · exact List.mem_cons_self _ _
      · exact List.mem_cons_of_mem _ (ih _ _ x hx')
    · rw [if_neg hadm] at hx
      exact List.mem_cons_of_mem _ (ih _ _ x hx)

/-- If every pending request lies in a fixed window strictly later than
`w`, the run admits nothing into window `w`. -/
theorem fixedWindowCount_run_eq_zero (maxR W : ℕ) (ts : List ℕ)
    (wid hits w : ℕ) (hfut : ∀ t ∈ ts, w < t / W) :
    fixedWindowCount (rateLimitRun maxR W wid hits ts) W w = 0 := by
  rw [fixedWindowCount, List.countP_eq_zero]
  intro x hx
  have hxts := rateLimitRun_subset maxR W ts wid hits x hx
  have hlt := hfut x hxts
  simp only [decide_eq_true_eq]
  omega

/-- Invariant of the fixed-window limiter: over a time-ordered request
sequence, the admitted count of every fixed window stays below `maxR`,
accounting for the hits already recorded in the current window. -/
theorem rateLimitRun_window_le (maxR W : ℕ) :
    ∀ (ts : List ℕ) (wid hits : ℕ),
      ts.Pairwise (fun a b => a ≤ b) →
      (∀ t ∈ ts, wid ≤ t / W) →
      hits ≤ maxR →
      ∀ w, fixedWindowCount (rateLimitRun maxR W wid hits ts) W w
          + (if w = wid then hits else 0) ≤ maxR := by
  intro ts
  induction ts with
  | nil =>
    intro wid hits _ _ hh w
    by_cases hw : w = wid <;>
      simp [rateLimitRun, fixedWindowCount, hw, hh]
  | cons t ts ih =>
    intro wid hits hp hwin hh w
    obtain ⟨hhead, hp'⟩ := List.pairwise_cons.mp hp
    have hstw : wid ≤ t / W := hwin t (List.mem_cons_self t ts)
    have hfutdiv : ∀ t' ∈ ts, t / W ≤ t' / W :=
      fun t' ht' => Nat.div_le_div_right (hhead t' ht')
    have hA : (if t / W = wid then hits else 0) ≤ maxR := by
      by_cases hts0 : t / W = wid <;> simp [hts0, hh]
    simp only [rateLimitRun]
    by_cases hadm : (if t / W = wid then hits else 0) < maxR
    · rw [if_pos hadm]
      have hIH := ih (t / W) ((if t / W = wid then hits else 0) + 1) hp'
        hfutdiv (by omega) w
      by_cases hw : w = t / W
      · subst hw
        have hcnt : fixedWindowCount
              (t :: rateLimitRun maxR W (t / W)
                ((if t / W = wid then hits else 0) + 1) ts) W (t / W)
            = fixedWindowCount
                (rateLimitRun maxR W (t / W)
                  ((if t / W = wid then hits else 0) + 1) ts) W (t / W) + 1 := by
          simp [fixedWindowCount, List.countP_cons]
        rw [if_pos rfl] at hIH
        omega
      · have hne : ¬ t / W = w := fun he => hw he.symm
        have hcnt : fixedWindowCount
              (t :: rateLimitRun maxR W (t / W)
                ((if t / W = wid then hits else 0) + 1) ts) W w
            = fixedWindowCount
                (rateLimitRun maxR W (t / W)
                  ((if t / W = wid then hits else 0) + 1) ts) W w := by
          simp [fixedWindowCount, List.countP_cons, hne]
        rw [hcnt]
        rw [if_neg hw] at hIH
        by_cases hws : w = wid
        · subst hws
          have hzero : fixedWindowCount
              (rateLimitRun maxR W (t / W)
                ((if t / W = w then hits else 0) + 1) ts) W w = 0 :=
            fixedWindowCount_run_eq_zero maxR W ts (t / W) _ w
              (fun t' ht' =>
                lt_of_lt_of_le (Nat.lt_of_le_of_ne hstw hw)
                  (hfutdiv t' ht'))
          rw [hzero, if_pos rfl]
          simpa using hh
        · rw [if_neg hws]
          omega
    · rw [if_neg hadm]
      have hIH := ih (t / W) (if t / W = wid then hits else 0) hp' hfutdiv hA w
      by_cases hws : w = wid
      · subst hws
        by_cases hwt : w = t / W
        · rw [← hwt] at hIH ⊢
          simp at hIH ⊢
          omega
        · have hzero : fixedWindowCount
              (rateLimitRun maxR W (t / W) (if t / W = w then hits else 0) ts)
              W w = 0 :=
            fixedWindowCount_run_eq_zero maxR W ts (t / W) _ w
              (fun t' ht' =>
                lt_of_lt_of_le (Nat.lt_of_le_of_ne hstw hwt) (hfutdiv t' ht'))
          rw [hzero, if_pos rfl]
          simpa using hh
      · rw [if_neg hws]
        by_cases hwt : w = t / W
        · rw [if_pos hwt] at hIH
          omega
        · rw [if_neg hwt] at hIH
          omega

/-- C4 (amended): the limiter of backend/server.js is express-rate-limit's
fixed-window counter, so the budget it enforces is per fixed window: over
any time-ordered request sequence from process start, at most `maxR`
requests are admitted whose times fall in any one fixed window
`[w·W, (w+1)·W)`.  The sliding-window bound of the original claim does not
hold of this mechanism — see the counterexample. -/
theorem claimC4 (maxR W : ℕ) (ts : List ℕ)
    (hts : ts.Pairwise (fun a b => a ≤ b)) (w : ℕ) :
    fixedWindowCount (rateLimitRun maxR W 0 0 ts) W w ≤ maxR := by
  have h := rateLimitRun_window_le maxR W ts 0 0 hts
    (fun t _ => Nat.zero_le _) (Nat.zero_le _) w
  by_cases hw : w = 0
  · subst hw
    simpa using h
  · rw [if_neg hw] at h
    omega

/-- Counterexample for C4 as stated: with `max = 2` and a 60-unit window,
requests at 58, 59, 60, 61 are all admitted (two in fixed window 0, two in
fixed window 1 after the counter reset), so the sliding window `(1, 61]`
of length 60 contains 4 admitted calls — exceeding `maxRequests = 2`. -/
theorem claimC4_counterexample :
    rateLimitRun 2 60 0 0 [58, 59, 60, 61] = [58, 59, 60, 61] ∧
      windowCount (rateLimitRun 2 60 0 0 [58, 59, 60, 61]) 60 61 = 4 ∧
      ¬ windowCount (rateLimitRun 2 60 0 0 [58, 59, 60, 61]) 60 61 ≤ 2 := by
  refine ⟨rfl, rfl, by decide⟩

/-- Witness for C4 at the spec's burst scenario: limit 2 per 1-unit
window, five requests at time 0 — at most 2 admitted in fixed window 0. -/
theorem claimC4_witness :
    ([0, 0, 0, 0, 0] : List ℕ).Pairwise (fun a b => a ≤ b) ∧
      fixedWindowCount (rateLimitRun 2 1 0 0 [0, 0, 0, 0, 0]) 1 0 ≤ 2 :=
  ⟨by decide, claimC4 2 1 [0, 0, 0, 0, 0] (by decide) 0⟩
